import Mathlib

/-!
Shallow embedding of the SNR-spectrum core of the mne-frequency-tagging
repository (file mne_frequency_tagging/frequency_tagging.py) together with
the shape checks of FtSpectra.__init__ (file mne_frequency_tagging/FtSpectra.py
exposes the same class via frequency_tagging.py).

Modelling choices:
- numpy float64 values are modelled by the type Val: an exact rational
  number, NaN, or a signed infinity.  Rounding is not modelled; the claims
  under study are about indexing, shapes, NaN propagation and exact
  identities, not about rounding error.
- numpy arrays are modelled by Tensor: a shape (list of dimension sizes)
  plus a total function from index lists to values.  Reshape is row-major,
  exactly as in numpy (flatten with respect to the old shape, unflatten
  with respect to the new one).
- Element sums (inside numpy mean) are folded left-to-right; valAdd is
  proved commutative and associative, so the order of summation does not
  affect the result.
- numpy mean of an empty slice returns NaN (it computes 0.0 / 0.0 and
  emits a RuntimeWarning, which is not an exception).
- Python exceptions are modelled with Except String.  In Python, raising
  a Warning instance does raise an exception, so the integrity checks in
  FtSpectra.__init__ are error branches.
- snr_spectrum is documented for 2d and 3d input only; rank 0 and rank 1
  input raises IndexError in the source (psd.shape[2] does not exist).
  Ranks above 3 are outside the documented contract and are not modelled.
-/

/-- IEEE-like scalar: exact rational, NaN, or signed infinity
(pos = true is positive infinity). -/
inductive Val where
  | num (q : ℚ)
  | nan
  | inf (pos : Bool)
deriving DecidableEq

/-- Addition with IEEE-like NaN and infinity propagation. -/
def valAdd : Val → Val → Val
  | Val.nan, _ => Val.nan
  | Val.num _, Val.nan => Val.nan
  | Val.inf _, Val.nan => Val.nan
  | Val.num a, Val.num b => Val.num (a + b)
  | Val.num _, Val.inf q => Val.inf q
  | Val.inf p, Val.num _ => Val.inf p
  | Val.inf p, Val.inf q => if p = q then Val.inf p else Val.nan

/-- Division with IEEE-like semantics: x/0 is NaN for x = 0 and a signed
infinity otherwise; anything with a NaN operand is NaN; finite/infinite
is 0; infinite/infinite is NaN.  Signed zero is not modelled. -/
def valDiv : Val → Val → Val
  | Val.nan, _ => Val.nan
  | Val.num _, Val.nan => Val.nan
  | Val.inf _, Val.nan => Val.nan
  | Val.num a, Val.num b =>
      if b = 0 then (if a = 0 then Val.nan else Val.inf (decide (0 < a)))
      else Val.num (a / b)
  | Val.num _, Val.inf _ => Val.num 0
  | Val.inf p, Val.num b => Val.inf (p == decide (0 ≤ b))
  | Val.inf _, Val.inf _ => Val.nan

/-- Sum of a list of values (numpy sum over an axis, one slice). -/
def valSum : List Val → Val
  | [] => Val.num 0
  | v :: vs => valAdd v (valSum vs)

/-- numpy mean over an axis, one slice: sum divided by length.
For the empty list this is 0/0, i.e. NaN, exactly as numpy returns. -/
def valMean (l : List Val) : Val :=
  valDiv (valSum l) (Val.num (l.length : ℚ))

/-- numpy ndarray model: a shape and a total map from index lists to values.
Only indices that are pointwise below the shape (and of the right length)
are meaningful; all statements quantify over such indices. -/
structure Tensor where
  shape : List ℕ
  data : List ℕ → Val

/-- Row-major linear offset of a (valid) index list with respect to a shape. -/
def flatIdx : List ℕ → List ℕ → ℕ
  | _ :: ds, i :: is => i * ds.prod + flatIdx ds is
  | _, _ => 0

/-- Inverse of flatIdx: recover the row-major index list of a linear offset. -/
def unflatten : List ℕ → ℕ → List ℕ
  | [], _ => []
  | _ :: ds, k => k / ds.prod :: unflatten ds (k % ds.prod)

/-- numpy reshape (row-major): the element at index ix of the reshaped array
is the element of the original array at the same linear offset. -/
def reshape (t : Tensor) (newshape : List ℕ) : Tensor :=
  ⟨newshape, fun ix => t.data (unflatten t.shape (flatIdx newshape ix))⟩

/-- numpy integer indexing along an axis of length len: negative indices
count from the end. -/
def npIndex (len : ℕ) (j : ℤ) : ℕ :=
  if j < 0 then ((len : ℤ) + j).toNat else j.toNat

/-- The i_noise list of snr_spectrum (lines 56-59): for i in
range(noise_n_neighborfreqs), append i_freq + skip + i + 1 and
i_freq - skip - i - 1, in that order. -/
def iNoise (i_freq n s : ℕ) : List ℤ :=
  (List.range n).foldl
    (fun acc (i : ℕ) => acc ++ [(i_freq : ℤ) + s + i + 1, (i_freq : ℤ) - s - i - 1]) []

/-- Body of the SNR loop of snr_spectrum for one frequency bin i of one
channel/trial slice g (g j is the PSD at frequency bin j of that slice;
F is psd.shape[2]).  Bins outside [start_freq_i, stop_freq_i) get NaN;
otherwise the signal is divided by the mean over the i_noise indices. -/
def snrVal (F : ℕ) (g : ℕ → Val) (n s : ℕ) (i : ℕ) : Val :=
  let start_freq_i : ℤ := (n : ℤ) + (s : ℤ)
  let stop_freq_i : ℤ := (F : ℤ) - (n : ℤ) - (s : ℤ)
  if start_freq_i ≤ (i : ℤ) ∧ (i : ℤ) < stop_freq_i then
    valDiv (g i) (valMean ((iNoise i n s).map (fun j => g (npIndex F j))))
  else Val.nan

/-- The SNR loop of snr_spectrum (lines 40-62) on a rank-3 array:
every index [t, c, i] of the output is filled with the snrVal of the
frequency slice psd[t, c, :] at bin i; F is psd.shape[2]. -/
def snrLoop (psd : Tensor) (n s : ℕ) : Tensor :=
  let F := psd.shape.getD 2 0
  ⟨psd.shape, fun ix =>
    match ix with
    | [t, c, i] => snrVal F (fun j => psd.data [t, c, j]) n s i
    | _ => Val.nan⟩

/-- snr_spectrum (lines 12-68): 2d input is reshaped to
(1, shape[0], shape[1]), run through the SNR loop, and reshaped back to
(shape[1], shape[2]) of the loop output; 3d input is run directly.
Rank 0 and 1 raise IndexError in the source (psd.shape[2] is read). -/
def snr_spectrum (psd : Tensor) (noise_n_neighborfreqs noise_skip_neighborfreqs : ℕ) :
    Except String Tensor :=
  if psd.shape.length = 2 then
    let psd3 := reshape psd [1, psd.shape.getD 0 0, psd.shape.getD 1 0]
    let snr := snrLoop psd3 noise_n_neighborfreqs noise_skip_neighborfreqs
    Except.ok (reshape snr [snr.shape.getD 1 0, snr.shape.getD 2 0])
  else if psd.shape.length = 3 then
    Except.ok (snrLoop psd noise_n_neighborfreqs noise_skip_neighborfreqs)
  else
    Except.error "IndexError: tuple index out of range"

/-- Python builtin min over a list (defined value only for nonempty lists;
the Python call raises ValueError on an empty sequence, which
snr_at_frequency surfaces before using this value). -/
def listMin : List ℚ → ℚ
  | [] => 0
  | x :: xs => xs.foldl min x

/-- Lines 76-77 of snr_at_frequency: absolute distances from every entry of
freqs to stim_freq, then the first index whose distance equals the minimum
(np.where picks all indices with exact equality, [0][0] takes the first). -/
def nearestBinIndex (freqs : List ℚ) (stim_freq : ℚ) : ℕ :=
  let tmp_distlist := freqs.map (fun f => |f - stim_freq|)
  tmp_distlist.findIdx (fun d => decide (d = listMin tmp_distlist))

/-- snr_at_frequency (lines 71-94): select the nearest frequency bin, then
index the last axis for rank 3 or 2, pass rank 1 through unchanged, and
raise ValueError for any other rank. -/
def snr_at_frequency (snrs : Tensor) (freqs : List ℚ) (stim_freq : ℚ) :
    Except String Tensor :=
  if freqs.isEmpty then
    Except.error "ValueError: min arg is an empty sequence"
  else
    let i_signal := nearestBinIndex freqs stim_freq
    match snrs.shape with
    | [t0, c0, _f0] =>
        Except.ok ⟨[t0, c0], fun ix =>
          match ix with
          | [t, c] => snrs.data [t, c, i_signal]
          | _ => Val.nan⟩
    | [c0, _f0] =>
        Except.ok ⟨[c0], fun ix =>
          match ix with
          | [c] => snrs.data [c, i_signal]
          | _ => Val.nan⟩
    | [_f0] => Except.ok snrs
    | _ => Except.error "ValueError: SNR array has more that 3 dimensions. whats happening?"

/-- The FtSpectra container: frequency bins, PSD, optional SNR, optional
stimulation frequency, channel names.  The montage field is an external
mne object and is out of scope. -/
structure FtSpectra where
  frequency_bins : List ℚ
  psd : Tensor
  snr : Option Tensor
  stim_freq : Option ℚ
  ch_names : List String

/-- FtSpectra.__init__ (lines 245-263): store the fields, then run the
integrity checks: dim[-1] must equal the number of frequency bins and
dim[-2] the number of channel names; each failing check raises a Warning
(raising a Warning instance is an exception in Python).  dim[-1] and
dim[-2] on arrays of too small rank raise IndexError. -/
def FtSpectra.init (frequency_bins : List ℚ) (psd : Tensor) (ch_names : List String)
    (stim_freq : Option ℚ) : Except String FtSpectra :=
  match psd.shape.reverse with
  | [] => Except.error "IndexError: tuple index out of range"
  | lastDim :: rest =>
    if lastDim ≠ frequency_bins.length then
      Except.error "Warning: check your data! dimensions of PSD array do not fit with number of frequency bins you provided"
    else
      match rest with
      | [] => Except.error "IndexError: tuple index out of range"
      | sndLast :: _ =>
        if sndLast ≠ ch_names.length then
          Except.error "Warning: check your data! dimensions of PSD array do not fit with number of channels you provided"
        else
          Except.ok ⟨frequency_bins, psd, none, stim_freq, ch_names⟩

/-- Modelled from the spec words (section 4.1, step 2): the noise index set
of bin i is the 2 * neighbor_count indices i+s+1, ..., i+s+n and
i-s-1, ..., i-s-n, and the noise estimate is the arithmetic mean of the
slice values at those indices. -/
def specNoiseMean (g : ℕ → Val) (i n s : ℕ) : Val :=
  valMean (((List.range n).map (fun k => g (i + s + 1 + k))) ++
           ((List.range n).map (fun k => g (i - s - 1 - k))))

/-- True exactly on ok results. -/
def isOk {α : Type} : Except String α → Bool
  | Except.ok _ => true
  | Except.error _ => false

/-- Project the tensor out of an ok result (empty tensor on error; every
statement using it also asserts isOk). -/
def okTensor : Except String Tensor → Tensor
  | Except.ok t => t
  | Except.error _ => ⟨[], fun _ => Val.nan⟩

/-- True exactly on NaN and the two infinities (the possible results of an
unguarded floating-point division by zero). -/
def isNanOrInf : Val → Bool
  | Val.nan => true
  | Val.inf _ => true
  | Val.num _ => false

/-- Normal form of the i_noise accumulation: the loop interleaves one value
of p and one value of m per iteration. -/
def interleavePairs {α : Type} (p m : ℕ → α) : List ℕ → List α
  | [] => []
  | k :: ks => p k :: m k :: interleavePairs p m ks

/-- Example: rank-2 PSD of shape 2 x 7 with pairwise distinct entries. -/
def psdEx2 : Tensor := ⟨[2, 7], fun ix => Val.num ((flatIdx [2, 7] ix : ℕ) : ℚ)⟩

/-- Example: rank-3 PSD of shape 2 x 2 x 7 with pairwise distinct entries. -/
def psdEx3 : Tensor := ⟨[2, 2, 7], fun ix => Val.num ((flatIdx [2, 2, 7] ix : ℕ) : ℚ)⟩

/-- Example: rank-2 all-zero PSD of shape 1 x 5. -/
def psdZero2 : Tensor := ⟨[1, 5], fun _ => Val.num 0⟩

/-- Example: rank-3 all-zero PSD of shape 1 x 1 x 5. -/
def psdZero3 : Tensor := ⟨[1, 1, 5], fun _ => Val.num 0⟩

/-- Example: rank-2 constant PSD of shape 2 x 5 with value 3. -/
def psdConst2 : Tensor := ⟨[2, 5], fun _ => Val.num 3⟩

/-- Example: rank-3 constant PSD of shape 1 x 2 x 5 with value 3. -/
def psdConst3 : Tensor := ⟨[1, 2, 5], fun _ => Val.num 3⟩

/-- Example: rank-1 SNR array of length 4. -/
def snrT1 : Tensor := ⟨[4], fun _ => Val.num 2⟩

/-- Example: rank-2 SNR array of shape 2 x 4 with pairwise distinct entries. -/
def snrT2ex : Tensor := ⟨[2, 4], fun ix => Val.num ((flatIdx [2, 4] ix : ℕ) : ℚ)⟩

/-- Example: rank-3 SNR array of shape 2 x 2 x 4. -/
def snrT3ex : Tensor := ⟨[2, 2, 4], fun ix => Val.num ((flatIdx [2, 2, 4] ix : ℕ) : ℚ)⟩

/-- Example: rank-4 array (outside the supported ranks of the selector). -/
def snrT4ex : Tensor := ⟨[1, 1, 1, 1], fun _ => Val.num 0⟩

/-- Example: rank-3 array of shape 1 x 2 x 7 obtained from psdEx2 by adding
a singleton leading axis. -/
def psdEx2lifted : Tensor :=
  ⟨[1, 2, 7], fun ix =>
    match ix with
    | [_t, c, f] => psdEx2.data [c, f]
    | _ => Val.nan⟩

/-! ## Lemmas about the value arithmetic -/

lemma valAdd_comm (a b : Val) : valAdd a b = valAdd b a := by
  cases a with
  | num x =>
    cases b with
    | num y => simp [valAdd, add_comm]
    | nan => rfl
    | inf q => rfl
  | nan => cases b <;> rfl
  | inf p =>
    cases b with
    | num y => rfl
    | nan => rfl
    | inf q => cases p <;> cases q <;> simp [valAdd]

lemma valAdd_assoc (a b c : Val) : valAdd (valAdd a b) c = valAdd a (valAdd b c) := by
  cases a with
  | nan => rfl
  | num x =>
    cases b with
    | nan => rfl
    | num y =>
      cases c with
      | num z => simp [valAdd, add_assoc]
      | nan => rfl
      | inf r => rfl
    | inf q =>
      cases c with
      | num z => rfl
      | nan => rfl
      | inf r => cases q <;> cases r <;> rfl
  | inf p =>
    cases b with
    | nan => rfl
    | num y => cases c <;> rfl
    | inf q =>
      cases c with
      | num z => cases p <;> cases q <;> rfl
      | nan => cases p <;> cases q <;> rfl
      | inf r => cases p <;> cases q <;> cases r <;> rfl

lemma valAdd_zero_left (v : Val) : valAdd (Val.num 0) v = v := by
  cases v <;> simp [valAdd]

lemma valSum_append (l1 l2 : List Val) :
    valSum (l1 ++ l2) = valAdd (valSum l1) (valSum l2) := by
  induction l1 with
  | nil => simp [valSum, valAdd_zero_left]
  | cons v vs ih => simp [valSum, ih, valAdd_assoc]

lemma valSum_const (l : List Val) (v : ℚ) (h : ∀ x ∈ l, x = Val.num v) :
    valSum l = Val.num ((l.length : ℚ) * v) := by
  induction l with
  | nil => simp [valSum]
  | cons x xs ih =>
    have hx : x = Val.num v := h x (by simp)
    have ihh := ih (fun y hy => h y (by simp [hy]))
    simp only [valSum, hx, ihh, valAdd, List.length_cons]
    congr 1
    push_cast
    ring

lemma valDiv_nan_right (x : Val) : valDiv x Val.nan = Val.nan := by
  cases x <;> rfl

lemma valDiv_zero_isNanOrInf (x : Val) : isNanOrInf (valDiv x (Val.num 0)) = true := by
  cases x with
  | num a =>
    by_cases h : a = 0 <;> simp [valDiv, h, isNanOrInf]
  | nan => rfl
  | inf p => rfl

/-! ## Lemmas about the noise index list -/

lemma foldl_pairs {α : Type} (p m : ℕ → α) :
    ∀ (l : List ℕ) (init : List α),
      l.foldl (fun acc k => acc ++ [p k, m k]) init = init ++ interleavePairs p m l := by
  intro l
  induction l with
  | nil => intro init; simp [interleavePairs]
  | cons k ks ih =>
    intro init
    simp [List.foldl_cons, interleavePairs, ih]

lemma iNoise_eq (i n s : ℕ) :
    iNoise i n s =
      interleavePairs (fun k => (i : ℤ) + s + k + 1) (fun k => (i : ℤ) - s - k - 1)
        (List.range n) := by
  unfold iNoise
  rw [foldl_pairs]
  rw [List.nil_append]

lemma map_interleavePairs {α β : Type} (f : α → β) (p m : ℕ → α) (l : List ℕ) :
    (interleavePairs p m l).map f =
      interleavePairs (fun k => f (p k)) (fun k => f (m k)) l := by
  induction l with
  | nil => rfl
  | cons k ks ih => simp [interleavePairs, ih]

lemma interleavePairs_congr {α : Type} {p m p2 m2 : ℕ → α} {l : List ℕ}
    (hp : ∀ k ∈ l, p k = p2 k) (hm : ∀ k ∈ l, m k = m2 k) :
    interleavePairs p m l = interleavePairs p2 m2 l := by
  induction l with
  | nil => rfl
  | cons k ks ih =>
    simp only [interleavePairs]
    rw [hp k (by simp), hm k (by simp),
      ih (fun a ha => hp a (by simp [ha])) (fun a ha => hm a (by simp [ha]))]

lemma length_interleavePairs {α : Type} (p m : ℕ → α) (l : List ℕ) :
    (interleavePairs p m l).length = 2 * l.length := by
  induction l with
  | nil => rfl
  | cons k ks ih => simp [interleavePairs, ih]; omega

lemma mem_interleavePairs {α : Type} {x : α} {p m : ℕ → α} {l : List ℕ} :
    x ∈ interleavePairs p m l ↔ ∃ k ∈ l, x = p k ∨ x = m k := by
  induction l with
  | nil => simp [interleavePairs]
  | cons k ks ih =>
    simp only [interleavePairs, List.mem_cons, ih]
    constructor
    · rintro (rfl | rfl | ⟨a, ha, hx⟩)
      · exact ⟨k, Or.inl rfl, Or.inl rfl⟩
      · exact ⟨k, Or.inl rfl, Or.inr rfl⟩
      · exact ⟨a, Or.inr ha, hx⟩
    · rintro ⟨a, (rfl | ha), hx⟩
      · rcases hx with rfl | rfl
        · exact Or.inl rfl
        · exact Or.inr (Or.inl rfl)
      · exact Or.inr (Or.inr ⟨a, ha, hx⟩)

lemma valSum_interleavePairs (a b : ℕ → Val) (l : List ℕ) :
    valSum (interleavePairs a b l) = valAdd (valSum (l.map a)) (valSum (l.map b)) := by
  induction l with
  | nil => simp [interleavePairs, valSum, valAdd]
  | cons k ks ih =>
    simp only [interleavePairs, valSum, List.map_cons, ih]
    rw [valAdd_assoc]
    congr 1
    rw [← valAdd_assoc, valAdd_comm (b k) (valSum (List.map a ks)), valAdd_assoc]

/-! ## Lemmas about snrVal -/

lemma snrVal_nan_edge (F : ℕ) (g : ℕ → Val) (n s i : ℕ)
    (h : (i : ℤ) < (n : ℤ) + s ∨ (F : ℤ) - ((n : ℤ) + s) ≤ i) :
    snrVal F g n s i = Val.nan := by
  simp only [snrVal]
  rw [if_neg (by omega)]

lemma snrVal_defined (F : ℕ) (g : ℕ → Val) (n s i : ℕ)
    (h1 : n + s ≤ i) (h2 : i + (n + s) < F) :
    snrVal F g n s i = valDiv (g i) (specNoiseMean g i n s) := by
  simp only [snrVal]
  have hcond : ((n : ℤ) + (s : ℤ) ≤ (i : ℤ) ∧ (i : ℤ) < (F : ℤ) - (n : ℤ) - (s : ℤ)) := by
    constructor <;> omega
  rw [if_pos hcond]
  congr 1
  have hp : ∀ k ∈ List.range n,
      g (npIndex F ((i : ℤ) + s + k + 1)) = g (i + s + 1 + k) := by
    intro k hk
    have hk2 : k < n := List.mem_range.mp hk
    congr 1
    simp only [npIndex]
    rw [if_neg (by omega)]
    omega
  have hm : ∀ k ∈ List.range n,
      g (npIndex F ((i : ℤ) - s - k - 1)) = g (i - s - 1 - k) := by
    intro k hk
    have hk2 : k < n := List.mem_range.mp hk
    congr 1
    simp only [npIndex]
    rw [if_neg (by omega)]
    omega
  rw [iNoise_eq, map_interleavePairs]
  rw [interleavePairs_congr hp hm]
  simp only [specNoiseMean, valMean]
  rw [valSum_interleavePairs, valSum_append]
  congr 1
  simp only [length_interleavePairs, List.length_append, List.length_map, List.length_range]
  congr 1
  push_cast
  ring

lemma snrVal_congr (F : ℕ) (g g2 : ℕ → Val) (n s i : ℕ)
    (h : ∀ j, j < F → g j = g2 j) :
    snrVal F g n s i = snrVal F g2 n s i := by
  simp only [snrVal]
  by_cases hc : ((n : ℤ) + (s : ℤ) ≤ (i : ℤ) ∧ (i : ℤ) < (F : ℤ) - (n : ℤ) - (s : ℤ))
  · rw [if_pos hc, if_pos hc]
    obtain ⟨hc1, hc2⟩ := hc
    congr 1
    · exact h i (by omega)
    · congr 1
      apply List.map_congr_left
      intro j hj
      rw [iNoise_eq, mem_interleavePairs] at hj
      obtain ⟨k, hk, hjk⟩ := hj
      have hkn : k < n := List.mem_range.mp hk
      have hlt : npIndex F j < F := by
        rcases hjk with rfl | rfl <;>
          (simp only [npIndex]; split <;> omega)
      exact h _ hlt
  · rw [if_neg hc, if_neg hc]

lemma snrVal_zero_neighbors (F : ℕ) (g : ℕ → Val) (s i : ℕ) :
    snrVal F g 0 s i = Val.nan := by
  simp only [snrVal]
  split
  · have hnil : iNoise i 0 s = [] := by simp [iNoise]
    rw [hnil]
    simp only [List.map_nil, valMean, valSum, List.length_nil]
    norm_num [valDiv]
    exact valDiv_nan_right (g i)
  · rfl

/-! ## Lemmas about tensors, reshape and the two snr_spectrum paths -/

lemma reshape_shape (t : Tensor) (ns : List ℕ) : (reshape t ns).shape = ns := rfl

lemma snrLoop_shape (psd : Tensor) (n s : ℕ) : (snrLoop psd n s).shape = psd.shape := rfl

lemma snrLoop_data3 (psd : Tensor) (T C F n s : ℕ) (h : psd.shape = [T, C, F]) (t c i : ℕ) :
    (snrLoop psd n s).data [t, c, i] = snrVal F (fun j => psd.data [t, c, j]) n s i := by
  simp [snrLoop, h]

lemma snr_spectrum_rank3 (psd : Tensor) (T C F n s : ℕ) (h : psd.shape = [T, C, F]) :
    snr_spectrum psd n s = Except.ok (snrLoop psd n s) := by
  simp [snr_spectrum, h]

lemma snr_spectrum_rank2 (psd : Tensor) (C F n s : ℕ) (h : psd.shape = [C, F]) :
    snr_spectrum psd n s =
      Except.ok (reshape (snrLoop (reshape psd [1, C, F]) n s) [C, F]) := by
  simp [snr_spectrum, h, snrLoop_shape, reshape_shape]

lemma flatIdx_two (C F c i : ℕ) : flatIdx [C, F] [c, i] = c * F + i := by
  simp [flatIdx]

lemma flatIdx_three (C F c i : ℕ) : flatIdx [1, C, F] [0, c, i] = c * F + i := by
  simp [flatIdx]

lemma unflatten_two (C F c i : ℕ) (hi : i < F) : unflatten [C, F] (c * F + i) = [c, i] := by
  have hF : 0 < F := Nat.pos_of_ne_zero (by omega)
  simp only [unflatten, List.prod_cons, List.prod_nil, mul_one, Nat.div_one, Nat.mod_one]
  have hdiv : (c * F + i) / F = c := by
    rw [mul_comm c F, Nat.mul_add_div hF, Nat.div_eq_of_lt hi, Nat.add_zero]
  have hmod : (c * F + i) % F = i := by
    rw [mul_comm c F, Nat.mul_add_mod, Nat.mod_eq_of_lt hi]
  rw [hdiv, hmod]

lemma unflatten_three (C F c i : ℕ) (hc : c < C) (hi : i < F) :
    unflatten [1, C, F] (c * F + i) = [0, c, i] := by
  have hF : 0 < F := Nat.pos_of_ne_zero (by omega)
  have hlt : c * F + i < C * F := by
    have h1 : c * F + i < (c + 1) * F := by
      rw [Nat.succ_mul]
      omega
    have h2 : (c + 1) * F ≤ C * F := Nat.mul_le_mul_right F (by omega)
    omega
  have hstep : unflatten [1, C, F] (c * F + i)
      = (c * F + i) / (C * F) :: unflatten [C, F] ((c * F + i) % (C * F)) := by
    simp [unflatten]
  rw [hstep, Nat.div_eq_of_lt hlt, Nat.mod_eq_of_lt hlt, unflatten_two C F c i hi]

lemma reshape_data (t : Tensor) (ns ix : List ℕ) :
    (reshape t ns).data ix = t.data (unflatten t.shape (flatIdx ns ix)) := rfl

lemma reshape2to3_data (psd : Tensor) (C F c j : ℕ) (h : psd.shape = [C, F]) (hj : j < F) :
    (reshape psd [1, C, F]).data [0, c, j] = psd.data [c, j] := by
  rw [reshape_data, h, flatIdx_three, unflatten_two C F c j hj]

lemma snr_spectrum_rank2_data (psd : Tensor) (C F n s c i : ℕ) (h : psd.shape = [C, F])
    (hc : c < C) (hi : i < F) :
    (okTensor (snr_spectrum psd n s)).data [c, i]
      = snrVal F (fun j => psd.data [c, j]) n s i := by
  rw [snr_spectrum_rank2 psd C F n s h]
  simp only [okTensor]
  rw [reshape_data, snrLoop_shape, reshape_shape, flatIdx_two,
    unflatten_three C F c i hc hi]
  rw [snrLoop_data3 (reshape psd [1, C, F]) 1 C F n s rfl 0 c i]
  exact snrVal_congr F _ _ n s i (fun j hj => reshape2to3_data psd C F c j h hj)

lemma snr_spectrum_rank3_data (psd : Tensor) (T C F n s t c i : ℕ)
    (h : psd.shape = [T, C, F]) :
    (okTensor (snr_spectrum psd n s)).data [t, c, i]
      = snrVal F (fun j => psd.data [t, c, j]) n s i := by
  rw [snr_spectrum_rank3 psd T C F n s h]
  simp only [okTensor]
  exact snrLoop_data3 psd T C F n s h t c i

lemma snr_spectrum_rank3_ok (psd : Tensor) (T C F n s : ℕ) (h : psd.shape = [T, C, F]) :
    isOk (snr_spectrum psd n s) = true := by
  rw [snr_spectrum_rank3 psd T C F n s h]
  rfl

lemma snr_spectrum_rank2_ok (psd : Tensor) (C F n s : ℕ) (h : psd.shape = [C, F]) :
    isOk (snr_spectrum psd n s) = true := by
  rw [snr_spectrum_rank2 psd C F n s h]
  rfl

lemma snr_spectrum_rank3_shape (psd : Tensor) (T C F n s : ℕ) (h : psd.shape = [T, C, F]) :
    (okTensor (snr_spectrum psd n s)).shape = psd.shape := by
  rw [snr_spectrum_rank3 psd T C F n s h]
  rfl

lemma snr_spectrum_rank2_shape (psd : Tensor) (C F n s : ℕ) (h : psd.shape = [C, F]) :
    (okTensor (snr_spectrum psd n s)).shape = psd.shape := by
  rw [snr_spectrum_rank2 psd C F n s h, h]
  rfl

/-! ## Lemmas about the nearest-bin selection -/

lemma foldl_min_le_init : ∀ (l : List ℚ) (a : ℚ), l.foldl min a ≤ a := by
  intro l
  induction l with
  | nil => intro a; simp
  | cons x xs ih =>
    intro a
    calc (x :: xs).foldl min a = xs.foldl min (min a x) := by simp [List.foldl_cons]
    _ ≤ min a x := ih (min a x)
    _ ≤ a := min_le_left a x

lemma foldl_min_le_mem : ∀ (l : List ℚ) (a y : ℚ), y ∈ l → l.foldl min a ≤ y := by
  intro l
  induction l with
  | nil => intro a y hy; simp at hy
  | cons x xs ih =>
    intro a y hy
    rcases List.mem_cons.mp hy with rfl | hy2
    · calc (y :: xs).foldl min a = xs.foldl min (min a y) := by simp [List.foldl_cons]
      _ ≤ min a y := foldl_min_le_init xs (min a y)
      _ ≤ y := min_le_right a y
    · calc (x :: xs).foldl min a = xs.foldl min (min a x) := by simp [List.foldl_cons]
      _ ≤ y := ih (min a x) y hy2

lemma foldl_min_mem : ∀ (l : List ℚ) (a : ℚ), l.foldl min a = a ∨ l.foldl min a ∈ l := by
  intro l
  induction l with
  | nil => intro a; left; rfl
  | cons x xs ih =>
    intro a
    have hstep : (x :: xs).foldl min a = xs.foldl min (min a x) := by
      simp [List.foldl_cons]
    rcases ih (min a x) with h | h
    · rcases min_choice a x with hm | hm
      · left; rw [hstep, h, hm]
      · right; rw [hstep, h, hm]; exact List.mem_cons_self x xs
    · right
      rw [hstep]
      exact List.mem_cons_of_mem x h

lemma listMin_le (l : List ℚ) (y : ℚ) (hy : y ∈ l) : listMin l ≤ y := by
  cases l with
  | nil => simp at hy
  | cons x xs =>
    rcases List.mem_cons.mp hy with rfl | h
    · exact foldl_min_le_init xs y
    · exact foldl_min_le_mem xs x y h

lemma listMin_mem (l : List ℚ) (hl : l ≠ []) : listMin l ∈ l := by
  cases l with
  | nil => exact absurd rfl hl
  | cons x xs =>
    rcases foldl_min_mem xs x with h | h
    · rw [listMin, h]; exact List.mem_cons_self x xs
    · rw [listMin]; exact List.mem_cons_of_mem x h

lemma nearestBinIndex_lt (freqs : List ℚ) (q : ℚ) (h : freqs ≠ []) :
    nearestBinIndex freqs q < freqs.length := by
  unfold nearestBinIndex
  have hne : freqs.map (fun f => |f - q|) ≠ [] := by
    simpa using h
  have hmem := listMin_mem (freqs.map (fun f => |f - q|)) hne
  have hex : ∃ d ∈ freqs.map (fun f => |f - q|),
      (fun d => decide (d = listMin (freqs.map (fun f => |f - q|)))) d = true :=
    ⟨_, hmem, by simp⟩
  have := List.findIdx_lt_length_of_exists hex
  simpa using this

lemma getD_eq_get_of_lt (l : List ℚ) (k : ℕ) (hk : k < l.length) :
    l.getD k 0 = l.get ⟨k, hk⟩ := by
  rw [List.getD_eq_getElem?_getD, List.getElem?_eq_getElem hk]
  rfl

lemma nearestBinIndex_dist_eq_min (freqs : List ℚ) (q : ℚ) (h : freqs ≠ []) :
    |freqs.getD (nearestBinIndex freqs q) 0 - q|
      = listMin (freqs.map (fun f => |f - q|)) := by
  have hlt := nearestBinIndex_lt freqs q h
  have hlt2 : nearestBinIndex freqs q < (freqs.map (fun f => |f - q|)).length := by
    simpa using hlt
  have hfound : decide ((freqs.map (fun f => |f - q|)).get
      ⟨nearestBinIndex freqs q, hlt2⟩ = listMin (freqs.map (fun f => |f - q|))) = true := by
    have := @List.findIdx_getElem _
      (fun d => decide (d = listMin (freqs.map (fun f => |f - q|))))
      (freqs.map (fun f => |f - q|)) hlt2
    simpa [nearestBinIndex] using this
  have heq := of_decide_eq_true hfound
  calc |freqs.getD (nearestBinIndex freqs q) 0 - q|
      = (freqs.map (fun f => |f - q|)).get ⟨nearestBinIndex freqs q, hlt2⟩ := by
        rw [getD_eq_get_of_lt freqs _ hlt]
        exact (List.getElem_map (fun f => |f - q|)).symm
  _ = listMin (freqs.map (fun f => |f - q|)) := heq

lemma nearestBinIndex_min (freqs : List ℚ) (q : ℚ) (k : ℕ) (h : freqs ≠ [])
    (hk : k < freqs.length) :
    |freqs.getD (nearestBinIndex freqs q) 0 - q| ≤ |freqs.getD k 0 - q| := by
  rw [nearestBinIndex_dist_eq_min freqs q h]
  apply listMin_le
  rw [getD_eq_get_of_lt freqs k hk]
  exact List.mem_map_of_mem (fun f => |f - q|) (freqs.get_mem k hk)

lemma nearestBinIndex_first (freqs : List ℚ) (q : ℚ) (k : ℕ) (h : freqs ≠ [])
    (hk : k < freqs.length)
    (heq : |freqs.getD k 0 - q| = |freqs.getD (nearestBinIndex freqs q) 0 - q|) :
    nearestBinIndex freqs q ≤ k := by
  by_contra hlt
  push_neg at hlt
  have hk2 : k < (freqs.map (fun f => |f - q|)).length := by simpa using hk
  have hkidx : k < (freqs.map (fun f => |f - q|)).findIdx
      (fun d => decide (d = listMin (freqs.map (fun f => |f - q|)))) := by
    simpa [nearestBinIndex] using hlt
  have hnot := List.not_of_lt_findIdx hkidx
  have hval : (freqs.map (fun f => |f - q|))[k] = |freqs.getD k 0 - q| := by
    rw [List.getElem_map, getD_eq_get_of_lt freqs k hk]
    rfl
  rw [hval, heq, nearestBinIndex_dist_eq_min freqs q h] at hnot
  simp at hnot

/-! ## Lemmas about snr_at_frequency and FtSpectra.init -/

lemma snr_at_frequency_rank3 (snrs : Tensor) (t0 c0 f0 : ℕ) (freqs : List ℚ) (q : ℚ)
    (hfe : freqs ≠ []) (hs : snrs.shape = [t0, c0, f0]) :
    snr_at_frequency snrs freqs q = Except.ok ⟨[t0, c0], fun ix =>
      match ix with
      | [t, c] => snrs.data [t, c, nearestBinIndex freqs q]
      | _ => Val.nan⟩ := by
  rw [snr_at_frequency, if_neg (by simp [hfe])]
  rw [hs]

lemma snr_at_frequency_rank2 (snrs : Tensor) (c0 f0 : ℕ) (freqs : List ℚ) (q : ℚ)
    (hfe : freqs ≠ []) (hs : snrs.shape = [c0, f0]) :
    snr_at_frequency snrs freqs q = Except.ok ⟨[c0], fun ix =>
      match ix with
      | [c] => snrs.data [c, nearestBinIndex freqs q]
      | _ => Val.nan⟩ := by
  rw [snr_at_frequency, if_neg (by simp [hfe])]
  rw [hs]

lemma snr_at_frequency_rank1 (snrs : Tensor) (f0 : ℕ) (freqs : List ℚ) (q : ℚ)
    (hfe : freqs ≠ []) (hs : snrs.shape = [f0]) :
    snr_at_frequency snrs freqs q = Except.ok snrs := by
  rw [snr_at_frequency, if_neg (by simp [hfe])]
  rw [hs]

/-! ## Concrete evaluations over the rationals -/

lemma distlist_eval :
    ([1, 2, 3, 4] : List ℚ).map (fun f => |f - 5/2|) = [3/2, 1/2, 1/2, 3/2] := by
  have h1 : |(1 : ℚ) - 5/2| = 3/2 := by
    rw [abs_sub_comm, abs_of_nonneg (by norm_num)]
    norm_num
  have h2 : |(2 : ℚ) - 5/2| = 1/2 := by
    rw [abs_sub_comm, abs_of_nonneg (by norm_num)]
    norm_num
  have h3 : |(3 : ℚ) - 5/2| = 1/2 := by
    rw [abs_of_nonneg (by norm_num)]
    norm_num
  have h4 : |(4 : ℚ) - 5/2| = 3/2 := by
    rw [abs_of_nonneg (by norm_num)]
    norm_num
  simp only [List.map_cons, List.map_nil, h1, h2, h3, h4]

lemma listMin_eval : listMin [(3 : ℚ)/2, 1/2, 1/2, 3/2] = 1/2 := by
  simp only [listMin, List.foldl_cons, List.foldl_nil]
  rw [min_eq_right (by norm_num : (1 : ℚ)/2 ≤ 3/2)]
  rw [min_eq_left (by norm_num : (1 : ℚ)/2 ≤ 1/2)]
  rw [min_eq_left (by norm_num : (1 : ℚ)/2 ≤ 3/2)]

lemma nearestBinIndex_eval : nearestBinIndex [1, 2, 3, 4] (5/2 : ℚ) = 1 := by
  unfold nearestBinIndex
  simp only [distlist_eval, listMin_eval]
  rw [List.findIdx_cons, List.findIdx_cons]
  have hne : decide ((3 : ℚ)/2 = 1/2) = false := by
    rw [decide_eq_false_iff_not]
    norm_num
  have heq : decide ((1 : ℚ)/2 = 1/2) = true := by
    rw [decide_eq_true_eq]
  rw [hne, heq]
  rfl

lemma specNoiseMean_zero2 :
    specNoiseMean (fun j => psdZero2.data [0, j]) 2 1 1 = Val.num 0 := by
  simp only [specNoiseMean, List.range_succ, List.range_zero, List.map_cons, List.map_nil, psdZero2,
    List.cons_append, List.nil_append, valMean, valSum, valAdd, List.length_cons,
    List.length_nil]
  norm_num [valDiv]

lemma specNoiseMean_zero3 :
    specNoiseMean (fun j => psdZero3.data [0, 0, j]) 2 1 1 = Val.num 0 := by
  simp only [specNoiseMean, List.range_succ, List.range_zero, List.map_cons, List.map_nil, psdZero3,
    List.cons_append, List.nil_append, valMean, valSum, valAdd, List.length_cons,
    List.length_nil]
  norm_num [valDiv]

lemma psdZero2_bin2 : (okTensor (snr_spectrum psdZero2 1 1)).data [0, 2] = Val.nan := by
  rw [snr_spectrum_rank2_data psdZero2 1 5 1 1 0 2 rfl (by norm_num) (by norm_num)]
  rw [snrVal_defined 5 _ 1 1 2 (by norm_num) (by norm_num)]
  rw [specNoiseMean_zero2]
  simp [psdZero2, valDiv]

/-! ## Constant-slice evaluation of snrVal -/

lemma snrVal_const (F : ℕ) (g : ℕ → Val) (v : ℚ) (n s i : ℕ)
    (hg : ∀ j, j < F → g j = Val.num v) (hv : v ≠ 0) (hn : 1 ≤ n)
    (h1 : n + s ≤ i) (h2 : i + (n + s) < F) :
    snrVal F g n s i = Val.num 1 := by
  rw [snrVal_defined F g n s i h1 h2]
  have hmean : specNoiseMean g i n s = Val.num v := by
    rw [specNoiseMean, valMean]
    have hall : ∀ x ∈ ((List.range n).map (fun k => g (i + s + 1 + k))) ++
        ((List.range n).map (fun k => g (i - s - 1 - k))), x = Val.num v := by
      intro x hx
      rcases List.mem_append.mp hx with hx2 | hx2 <;>
      · obtain ⟨k, hk, rfl⟩ := List.mem_map.mp hx2
        have hkn : k < n := List.mem_range.mp hk
        exact hg _ (by omega)
    rw [valSum_const _ v hall]
    have hlen : (((List.range n).map (fun k => g (i + s + 1 + k))) ++
        ((List.range n).map (fun k => g (i - s - 1 - k)))).length = n + n := by
      simp
    rw [hlen]
    have hnz : ((n + n : ℕ) : ℚ) ≠ 0 := Nat.cast_ne_zero.mpr (by omega)
    simp only [valDiv]
    rw [if_neg hnz]
    rw [mul_div_cancel_left₀ v hnz]
  rw [hmean, hg i (by omega)]
  simp only [valDiv]
  rw [if_neg hv, div_self hv]

/-- Helper for the tie-break example: the distances of entries 2 and the
selected entry of [1, 2, 3, 4] to 5/2 agree (both are 1/2). -/
lemma tieExample :
    |List.getD [1, 2, 3, 4] 2 0 - (5/2 : ℚ)|
      = |List.getD [1, 2, 3, 4] (nearestBinIndex [1, 2, 3, 4] (5/2 : ℚ)) 0 - 5/2| := by
  rw [nearestBinIndex_eval]
  have hval3 : List.getD [1, 2, 3, 4] 2 (0 : ℚ) = 3 := rfl
  have hval2 : List.getD [1, 2, 3, 4] 1 (0 : ℚ) = 2 := rfl
  rw [hval3, hval2]
  rw [abs_of_nonneg (by norm_num : (0 : ℚ) ≤ 3 - 5/2), abs_sub_comm,
    abs_of_nonneg (by norm_num : (0 : ℚ) ≤ 5/2 - 2)]
  norm_num

/-! ## The claims -/

/-- C1: for every PSD tensor of rank 2 or 3 with F frequency bins on the last
axis and neighbor count n, skip count s, at every defined bin index i
(n+s ≤ i and i+(n+s) < F) the output of snr_spectrum at that bin equals the
PSD value at bin i divided by the arithmetic mean of the PSD values at the
2n indices i+s+1..i+n+s and i-s-1..i-n-s, computed independently per
channel/trial slice (specNoiseMean is that mean, written from the spec;
valDiv is the floating-point division). -/
theorem claim_C1 :
    (∀ (psd : Tensor) (T C F n s t c i : ℕ), psd.shape = [T, C, F] →
      t < T → c < C → n + s ≤ i → i + (n + s) < F →
      isOk (snr_spectrum psd n s) = true ∧
      (okTensor (snr_spectrum psd n s)).data [t, c, i]
        = valDiv (psd.data [t, c, i])
            (specNoiseMean (fun j => psd.data [t, c, j]) i n s)) ∧
    (∀ (psd : Tensor) (C F n s c i : ℕ), psd.shape = [C, F] →
      c < C → n + s ≤ i → i + (n + s) < F →
      isOk (snr_spectrum psd n s) = true ∧
      (okTensor (snr_spectrum psd n s)).data [c, i]
        = valDiv (psd.data [c, i])
            (specNoiseMean (fun j => psd.data [c, j]) i n s)) := by
  constructor
  · intro psd T C F n s t c i h ht hc h1 h2
    refine ⟨snr_spectrum_rank3_ok psd T C F n s h, ?_⟩
    rw [snr_spectrum_rank3_data psd T C F n s t c i h]
    exact snrVal_defined F _ n s i h1 h2
  · intro psd C F n s c i h hc h1 h2
    refine ⟨snr_spectrum_rank2_ok psd C F n s h, ?_⟩
    rw [snr_spectrum_rank2_data psd C F n s c i h hc (by omega)]
    exact snrVal_defined F _ n s i h1 h2

/-- C1 witness: the theorem applied to the concrete rank-3 tensor psdEx3 at
bin [0, 1, 3] and to the concrete rank-2 tensor psdEx2 at bin [1, 3], with
neighbor count 1 and skip count 1. -/
theorem claim_C1_witness :
    (isOk (snr_spectrum psdEx3 1 1) = true ∧
      (okTensor (snr_spectrum psdEx3 1 1)).data [0, 1, 3]
        = valDiv (psdEx3.data [0, 1, 3])
            (specNoiseMean (fun j => psdEx3.data [0, 1, j]) 3 1 1)) ∧
    (isOk (snr_spectrum psdEx2 1 1) = true ∧
      (okTensor (snr_spectrum psdEx2 1 1)).data [1, 3]
        = valDiv (psdEx2.data [1, 3])
            (specNoiseMean (fun j => psdEx2.data [1, j]) 3 1 1)) :=
  ⟨claim_C1.1 psdEx3 2 2 7 1 1 0 1 3 rfl (by decide) (by decide) (by decide) (by decide),
   claim_C1.2 psdEx2 2 7 1 1 1 3 rfl (by decide) (by decide) (by decide)⟩

/-- C2: for every PSD tensor of rank 2 or 3 with F frequency bins and
parameters n, s, every output bin with index i < n+s or i ≥ F-(n+s) is NaN
in every channel/trial slice, and no error is raised (the NaN is written
where a shrunken window would otherwise have been used). -/
theorem claim_C2 :
    (∀ (psd : Tensor) (T C F n s t c i : ℕ), psd.shape = [T, C, F] →
      t < T → c < C → i < F →
      ((i : ℤ) < (n : ℤ) + s ∨ (F : ℤ) - ((n : ℤ) + s) ≤ i) →
      isOk (snr_spectrum psd n s) = true ∧
      (okTensor (snr_spectrum psd n s)).data [t, c, i] = Val.nan) ∧
    (∀ (psd : Tensor) (C F n s c i : ℕ), psd.shape = [C, F] →
      c < C → i < F →
      ((i : ℤ) < (n : ℤ) + s ∨ (F : ℤ) - ((n : ℤ) + s) ≤ i) →
      isOk (snr_spectrum psd n s) = true ∧
      (okTensor (snr_spectrum psd n s)).data [c, i] = Val.nan) := by
  constructor
  · intro psd T C F n s t c i h ht hc hi hedge
    refine ⟨snr_spectrum_rank3_ok psd T C F n s h, ?_⟩
    rw [snr_spectrum_rank3_data psd T C F n s t c i h]
    exact snrVal_nan_edge F _ n s i hedge
  · intro psd C F n s c i h hc hi hedge
    refine ⟨snr_spectrum_rank2_ok psd C F n s h, ?_⟩
    rw [snr_spectrum_rank2_data psd C F n s c i h hc hi]
    exact snrVal_nan_edge F _ n s i hedge

/-- C2 witness: the theorem applied to psdEx3 at the upper-edge bin
[0, 0, 6] and to psdEx2 at the lower-edge bin [0, 1], with n = s = 1. -/
theorem claim_C2_witness :
    (isOk (snr_spectrum psdEx3 1 1) = true ∧
      (okTensor (snr_spectrum psdEx3 1 1)).data [0, 0, 6] = Val.nan) ∧
    (isOk (snr_spectrum psdEx2 1 1) = true ∧
      (okTensor (snr_spectrum psdEx2 1 1)).data [0, 1] = Val.nan) :=
  ⟨claim_C2.1 psdEx3 2 2 7 1 1 0 0 6 rfl (by decide) (by decide) (by decide) (by decide),
   claim_C2.2 psdEx2 2 7 1 1 0 1 rfl (by decide) (by decide) (by decide)⟩

/-- C3: for every PSD tensor of rank 2 or 3 and any non-negative integer
parameters, snr_spectrum returns (with no error) a tensor whose shape equals
the input shape exactly; in particular a rank-2 input yields a rank-2
output, never the internally padded rank-3 shape. -/
theorem claim_C3 :
    (∀ (psd : Tensor) (T C F n s : ℕ), psd.shape = [T, C, F] →
      isOk (snr_spectrum psd n s) = true ∧
      (okTensor (snr_spectrum psd n s)).shape = psd.shape) ∧
    (∀ (psd : Tensor) (C F n s : ℕ), psd.shape = [C, F] →
      isOk (snr_spectrum psd n s) = true ∧
      (okTensor (snr_spectrum psd n s)).shape = psd.shape) := by
  constructor
  · intro psd T C F n s h
    exact ⟨snr_spectrum_rank3_ok psd T C F n s h,
      snr_spectrum_rank3_shape psd T C F n s h⟩
  · intro psd C F n s h
    exact ⟨snr_spectrum_rank2_ok psd C F n s h,
      snr_spectrum_rank2_shape psd C F n s h⟩

/-- C3 witness: the theorem applied to psdEx3 and psdEx2 with n = 2, s = 3. -/
theorem claim_C3_witness :
    (isOk (snr_spectrum psdEx3 2 3) = true ∧
      (okTensor (snr_spectrum psdEx3 2 3)).shape = psdEx3.shape) ∧
    (isOk (snr_spectrum psdEx2 2 3) = true ∧
      (okTensor (snr_spectrum psdEx2 2 3)).shape = psdEx2.shape) :=
  ⟨claim_C3.1 psdEx3 2 2 7 2 3 rfl, claim_C3.2 psdEx2 2 7 2 3 rfl⟩

/-- C4: for every nonempty frequency axis freqs and every target frequency,
snr_at_frequency selects the index minimizing the absolute distance of the
frequency-axis entry to the target; on ties it deterministically selects the
smallest such index; the selected index is what the rank-2 path reads from
the last axis; and for freqs = [1, 2, 3, 4] with target 5/2 the selected
index is 1. -/
theorem claim_C4 :
    (∀ (freqs : List ℚ) (q : ℚ) (k : ℕ), freqs ≠ [] → k < freqs.length →
      nearestBinIndex freqs q < freqs.length ∧
      |freqs.getD (nearestBinIndex freqs q) 0 - q| ≤ |freqs.getD k 0 - q|) ∧
    (∀ (freqs : List ℚ) (q : ℚ) (k : ℕ), freqs ≠ [] → k < freqs.length →
      |freqs.getD k 0 - q| = |freqs.getD (nearestBinIndex freqs q) 0 - q| →
      nearestBinIndex freqs q ≤ k) ∧
    (∀ (snrs : Tensor) (c0 f0 c : ℕ) (freqs : List ℚ) (q : ℚ), freqs ≠ [] →
      snrs.shape = [c0, f0] →
      isOk (snr_at_frequency snrs freqs q) = true ∧
      (okTensor (snr_at_frequency snrs freqs q)).data [c]
        = snrs.data [c, nearestBinIndex freqs q]) ∧
    nearestBinIndex [1, 2, 3, 4] (5/2 : ℚ) = 1 := by
  refine ⟨?_, ?_, ?_, nearestBinIndex_eval⟩
  · intro freqs q k h hk
    exact ⟨nearestBinIndex_lt freqs q h, nearestBinIndex_min freqs q k h hk⟩
  · intro freqs q k h hk heq
    exact nearestBinIndex_first freqs q k h hk heq
  · intro snrs c0 f0 c freqs q h hs
    rw [snr_at_frequency_rank2 snrs c0 f0 freqs q h hs]
    exact ⟨rfl, rfl⟩

/-- C4 witness: the theorem applied to freqs = [1, 2, 3, 4] and target 5/2
at comparison index 2 (the other bin of the exact tie), and to the concrete
rank-2 tensor snrT2ex at channel 1. -/
theorem claim_C4_witness :
    (nearestBinIndex [1, 2, 3, 4] (5/2 : ℚ) < List.length ([1, 2, 3, 4] : List ℚ) ∧
      |List.getD ([1, 2, 3, 4] : List ℚ) (nearestBinIndex [1, 2, 3, 4] (5/2 : ℚ)) 0 - 5/2|
        ≤ |List.getD ([1, 2, 3, 4] : List ℚ) 2 0 - 5/2|) ∧
    nearestBinIndex [1, 2, 3, 4] (5/2 : ℚ) ≤ 2 ∧
    (isOk (snr_at_frequency snrT2ex [1, 2, 3, 4] (5/2 : ℚ)) = true ∧
      (okTensor (snr_at_frequency snrT2ex [1, 2, 3, 4] (5/2 : ℚ))).data [1]
        = snrT2ex.data [1, nearestBinIndex [1, 2, 3, 4] (5/2 : ℚ)]) :=
  ⟨claim_C4.1 [1, 2, 3, 4] (5/2) 2 (by simp) (by simp),
   claim_C4.2.1 [1, 2, 3, 4] (5/2) 2 (by simp) (by simp) tieExample,
   claim_C4.2.2.1 snrT2ex 2 4 1 [1, 2, 3, 4] (5/2) (by simp) rfl⟩

/-- C5 counterexample: the claim states that a rank-1 input yields a rank-0
result, but snr_at_frequency returns the rank-1 input snrT1 unchanged, so
the result has rank 1, not 0. -/
theorem claim_C5_counterexample :
    snr_at_frequency snrT1 [1, 2, 3, 4] (5/2 : ℚ) = Except.ok snrT1 ∧
    snrT1.shape.length = 1 ∧ snrT1.shape.length ≠ 0 :=
  ⟨snr_at_frequency_rank1 snrT1 4 [1, 2, 3, 4] (5/2) (by simp) rfl, rfl, by decide⟩

/-- C5 (amended): for nonempty freqs, a rank-3 SNR input of shape
[t0, c0, f0] yields a rank-2 result of shape [t0, c0], a rank-2 input of
shape [c0, f0] yields a rank-1 result of shape [c0] (the frequency axis is
consumed), and a rank-1 input is returned unchanged, so its result keeps
rank 1 (value pass-through), not rank 0 as the original claim stated. -/
theorem claim_C5 :
    (∀ (snrs : Tensor) (t0 c0 f0 : ℕ) (freqs : List ℚ) (q : ℚ), freqs ≠ [] →
      snrs.shape = [t0, c0, f0] →
      isOk (snr_at_frequency snrs freqs q) = true ∧
      (okTensor (snr_at_frequency snrs freqs q)).shape = [t0, c0]) ∧
    (∀ (snrs : Tensor) (c0 f0 : ℕ) (freqs : List ℚ) (q : ℚ), freqs ≠ [] →
      snrs.shape = [c0, f0] →
      isOk (snr_at_frequency snrs freqs q) = true ∧
      (okTensor (snr_at_frequency snrs freqs q)).shape = [c0]) ∧
    (∀ (snrs : Tensor) (f0 : ℕ) (freqs : List ℚ) (q : ℚ), freqs ≠ [] →
      snrs.shape = [f0] →
      snr_at_frequency snrs freqs q = Except.ok snrs) := by
  refine ⟨?_, ?_, ?_⟩
  · intro snrs t0 c0 f0 freqs q h hs
    rw [snr_at_frequency_rank3 snrs t0 c0 f0 freqs q h hs]
    exact ⟨rfl, rfl⟩
  · intro snrs c0 f0 freqs q h hs
    rw [snr_at_frequency_rank2 snrs c0 f0 freqs q h hs]
    exact ⟨rfl, rfl⟩
  · intro snrs f0 freqs q h hs
    exact snr_at_frequency_rank1 snrs f0 freqs q h hs

/-- C5 witness: the amended theorem applied to the concrete rank-3, rank-2
and rank-1 tensors snrT3ex, snrT2ex and snrT1 with freqs = [1, 2, 3, 4]. -/
theorem claim_C5_witness :
    (isOk (snr_at_frequency snrT3ex [1, 2, 3, 4] (5/2 : ℚ)) = true ∧
      (okTensor (snr_at_frequency snrT3ex [1, 2, 3, 4] (5/2 : ℚ))).shape = [2, 2]) ∧
    (isOk (snr_at_frequency snrT2ex [1, 2, 3, 4] (5/2 : ℚ)) = true ∧
      (okTensor (snr_at_frequency snrT2ex [1, 2, 3, 4] (5/2 : ℚ))).shape = [2]) ∧
    snr_at_frequency snrT1 [1, 2, 3, 4] (5/2 : ℚ) = Except.ok snrT1 :=
  ⟨claim_C5.1 snrT3ex 2 2 4 [1, 2, 3, 4] (5/2) (by simp) rfl,
   claim_C5.2.1 snrT2ex 2 4 [1, 2, 3, 4] (5/2) (by simp) rfl,
   claim_C5.2.2 snrT1 4 [1, 2, 3, 4] (5/2) (by simp) rfl⟩

/-- C6: a tensor whose rank is outside 1..3 is rejected by snr_at_frequency
with an error (the ValueError branch; with empty freqs the min error fires
even earlier), and an FtSpectra whose PSD last-axis length does not match
the number of frequency bins is rejected by the constructor with an error
(the raised Warning), with no partial result in either case. -/
theorem claim_C6 :
    (∀ (snrs : Tensor) (freqs : List ℚ) (q : ℚ),
      snrs.shape.length ≠ 1 → snrs.shape.length ≠ 2 → snrs.shape.length ≠ 3 →
      isOk (snr_at_frequency snrs freqs q) = false) ∧
    (∀ (frequency_bins : List ℚ) (psd : Tensor) (ch_names : List String)
      (stim_freq : Option ℚ) (lastDim : ℕ) (rest : List ℕ),
      psd.shape.reverse = lastDim :: rest → lastDim ≠ frequency_bins.length →
      isOk (FtSpectra.init frequency_bins psd ch_names stim_freq) = false) := by
  constructor
  · intro snrs freqs q h1 h2 h3
    rw [snr_at_frequency]
    by_cases hfe : freqs.isEmpty
    · rw [if_pos hfe]
      rfl
    · rw [if_neg hfe]
      rcases hs : snrs.shape with _ | ⟨a, _ | ⟨b, _ | ⟨c, _ | ⟨d, rest⟩⟩⟩⟩
      · rfl
      · rw [hs] at h1
        simp at h1
      · rw [hs] at h2
        simp at h2
      · rw [hs] at h3
        simp at h3
      · rfl
  · intro fb psd ch sf lastDim rest hrev hne
    simp only [FtSpectra.init, hrev]
    rw [if_pos hne]
    rfl

/-- C6 witness: the theorem applied to the concrete rank-4 tensor snrT4ex,
and to the constructor with two frequency bins against the 2 x 5 tensor
psdConst2 (last axis 5). -/
theorem claim_C6_witness :
    isOk (snr_at_frequency snrT4ex [1] (1 : ℚ)) = false ∧
    isOk (FtSpectra.init [1, 2] psdConst2 [] none) = false :=
  ⟨claim_C6.1 snrT4ex [1] 1 (by decide) (by decide) (by decide),
   claim_C6.2 [1, 2] psdConst2 [] none 5 [2] rfl (by decide)⟩

/-- C7: for every rank-2 PSD tensor P and every rank-3 tensor Q obtained
from P by adding a singleton leading axis (Q.data [0, c, f] = P.data [c, f]),
snr_spectrum produces numerically identical values at every defined bin once
the singleton axis of the rank-3 result is removed, and neither call
errors. -/
theorem claim_C7 :
    ∀ (P Q : Tensor) (C F n s c i : ℕ), P.shape = [C, F] → Q.shape = [1, C, F] →
      (∀ c2 f2, c2 < C → f2 < F → Q.data [0, c2, f2] = P.data [c2, f2]) →
      c < C → n + s ≤ i → i + (n + s) < F →
      isOk (snr_spectrum P n s) = true ∧ isOk (snr_spectrum Q n s) = true ∧
      (okTensor (snr_spectrum P n s)).data [c, i]
        = (okTensor (snr_spectrum Q n s)).data [0, c, i] := by
  intro P Q C F n s c i hP hQ hPQ hc h1 h2
  refine ⟨snr_spectrum_rank2_ok P C F n s hP, snr_spectrum_rank3_ok Q 1 C F n s hQ, ?_⟩
  rw [snr_spectrum_rank2_data P C F n s c i hP hc (by omega)]
  rw [snr_spectrum_rank3_data Q 1 C F n s 0 c i hQ]
  exact snrVal_congr F _ _ n s i (fun j hj => (hPQ c j hc hj).symm)

/-- C7 witness: the theorem applied to the rank-2 tensor psdEx2 and its
singleton-lifted rank-3 version psdEx2lifted at defined bin [1, 3] with
n = s = 1. -/
theorem claim_C7_witness :
    isOk (snr_spectrum psdEx2 1 1) = true ∧
    isOk (snr_spectrum psdEx2lifted 1 1) = true ∧
    (okTensor (snr_spectrum psdEx2 1 1)).data [1, 3]
      = (okTensor (snr_spectrum psdEx2lifted 1 1)).data [0, 1, 3] :=
  claim_C7 psdEx2 psdEx2lifted 2 7 1 1 1 3 rfl rfl (fun _ _ _ _ => rfl)
    (by decide) (by decide) (by decide)

/-- C8 counterexample: the claim quantifies over every constant PSD tensor,
but for the all-zero tensor psdZero2 (every element equals v = 0) the
defined (non-edge) bin [0, 2] of the output is NaN (0/0), not 1.0. -/
theorem claim_C8_counterexample :
    isOk (snr_spectrum psdZero2 1 1) = true ∧
    (okTensor (snr_spectrum psdZero2 1 1)).data [0, 2] = Val.nan ∧
    Val.nan ≠ Val.num 1 :=
  ⟨snr_spectrum_rank2_ok psdZero2 1 5 1 1 rfl, psdZero2_bin2, by decide⟩

/-- C8 (amended): for every PSD tensor of rank 2 or 3 in which every element
equals the same nonzero value v, and neighbor count at least 1, every
defined (non-edge) bin of the snr_spectrum output equals exactly 1, for all
channels/trials.  (The original claim fails for v = 0, where the defined
bins are NaN = 0/0, and for neighbor count 0, where they are NaN as well.) -/
theorem claim_C8 :
    (∀ (psd : Tensor) (T C F : ℕ) (v : ℚ) (n s t c i : ℕ), psd.shape = [T, C, F] →
      (∀ t2 c2 i2, t2 < T → c2 < C → i2 < F → psd.data [t2, c2, i2] = Val.num v) →
      v ≠ 0 → 1 ≤ n → t < T → c < C → n + s ≤ i → i + (n + s) < F →
      (okTensor (snr_spectrum psd n s)).data [t, c, i] = Val.num 1) ∧
    (∀ (psd : Tensor) (C F : ℕ) (v : ℚ) (n s c i : ℕ), psd.shape = [C, F] →
      (∀ c2 i2, c2 < C → i2 < F → psd.data [c2, i2] = Val.num v) →
      v ≠ 0 → 1 ≤ n → c < C → n + s ≤ i → i + (n + s) < F →
      (okTensor (snr_spectrum psd n s)).data [c, i] = Val.num 1) := by
  constructor
  · intro psd T C F v n s t c i h hconst hv hn ht hc h1 h2
    rw [snr_spectrum_rank3_data psd T C F n s t c i h]
    exact snrVal_const F _ v n s i (fun j hj => hconst t c j ht hc hj) hv hn h1 h2
  · intro psd C F v n s c i h hconst hv hn hc h1 h2
    rw [snr_spectrum_rank2_data psd C F n s c i h hc (by omega)]
    exact snrVal_const F _ v n s i (fun j hj => hconst c j hc hj) hv hn h1 h2

/-- C8 witness: the amended theorem applied to the constant tensors
psdConst3 and psdConst2 (value 3) at defined bins with n = s = 1. -/
theorem claim_C8_witness :
    (okTensor (snr_spectrum psdConst3 1 1)).data [0, 1, 2] = Val.num 1 ∧
    (okTensor (snr_spectrum psdConst2 1 1)).data [1, 2] = Val.num 1 :=
  ⟨claim_C8.1 psdConst3 1 2 5 3 1 1 0 1 2 rfl (fun _ _ _ _ _ _ => rfl)
      three_ne_zero (by decide) (by decide) (by decide) (by decide) (by decide),
   claim_C8.2 psdConst2 2 5 3 1 1 1 2 rfl (fun _ _ _ _ => rfl)
      three_ne_zero (by decide) (by decide) (by decide) (by decide)⟩

/-- C9: snr_spectrum raises no error when the noise estimate at a defined
bin is zero; the division is performed unguarded and the output at that bin
is NaN or a signed infinity, per standard floating-point semantics. -/
theorem claim_C9 :
    (∀ (psd : Tensor) (T C F n s t c i : ℕ), psd.shape = [T, C, F] →
      n + s ≤ i → i + (n + s) < F →
      specNoiseMean (fun j => psd.data [t, c, j]) i n s = Val.num 0 →
      isOk (snr_spectrum psd n s) = true ∧
      isNanOrInf ((okTensor (snr_spectrum psd n s)).data [t, c, i]) = true) ∧
    (∀ (psd : Tensor) (C F n s c i : ℕ), psd.shape = [C, F] →
      c < C → n + s ≤ i → i + (n + s) < F →
      specNoiseMean (fun j => psd.data [c, j]) i n s = Val.num 0 →
      isOk (snr_spectrum psd n s) = true ∧
      isNanOrInf ((okTensor (snr_spectrum psd n s)).data [c, i]) = true) := by
  constructor
  · intro psd T C F n s t c i h h1 h2 hmean
    refine ⟨snr_spectrum_rank3_ok psd T C F n s h, ?_⟩
    rw [snr_spectrum_rank3_data psd T C F n s t c i h,
      snrVal_defined F _ n s i h1 h2, hmean]
    exact valDiv_zero_isNanOrInf _
  · intro psd C F n s c i h hc h1 h2 hmean
    refine ⟨snr_spectrum_rank2_ok psd C F n s h, ?_⟩
    rw [snr_spectrum_rank2_data psd C F n s c i h hc (by omega),
      snrVal_defined F _ n s i h1 h2, hmean]
    exact valDiv_zero_isNanOrInf _

/-- C9 witness: the theorem applied to the all-zero tensors psdZero3 and
psdZero2 at defined bin index 2 with n = s = 1, where the noise mean is 0. -/
theorem claim_C9_witness :
    (isOk (snr_spectrum psdZero3 1 1) = true ∧
      isNanOrInf ((okTensor (snr_spectrum psdZero3 1 1)).data [0, 0, 2]) = true) ∧
    (isOk (snr_spectrum psdZero2 1 1) = true ∧
      isNanOrInf ((okTensor (snr_spectrum psdZero2 1 1)).data [0, 2]) = true) :=
  ⟨claim_C9.1 psdZero3 1 1 5 1 1 0 0 2 rfl (by decide) (by decide) specNoiseMean_zero3,
   claim_C9.2 psdZero2 1 5 1 1 0 2 rfl (by decide) (by decide) (by decide)
     specNoiseMean_zero2⟩

/-- C10: calling snr_spectrum with neighbor count 0 raises no error and
returns a tensor of the input shape in which every entry is NaN: edge bins
by the margin rule, interior bins because the noise index list is empty, so
the noise estimate is the mean of zero values (NaN) and the division by it
is NaN. -/
theorem claim_C10 :
    (∀ (psd : Tensor) (T C F s t c i : ℕ), psd.shape = [T, C, F] →
      t < T → c < C → i < F →
      isOk (snr_spectrum psd 0 s) = true ∧
      (okTensor (snr_spectrum psd 0 s)).shape = psd.shape ∧
      (okTensor (snr_spectrum psd 0 s)).data [t, c, i] = Val.nan) ∧
    (∀ (psd : Tensor) (C F s c i : ℕ), psd.shape = [C, F] →
      c < C → i < F →
      isOk (snr_spectrum psd 0 s) = true ∧
      (okTensor (snr_spectrum psd 0 s)).shape = psd.shape ∧
      (okTensor (snr_spectrum psd 0 s)).data [c, i] = Val.nan) := by
  constructor
  · intro psd T C F s t c i h ht hc hi
    refine ⟨snr_spectrum_rank3_ok psd T C F 0 s h,
      snr_spectrum_rank3_shape psd T C F 0 s h, ?_⟩
    rw [snr_spectrum_rank3_data psd T C F 0 s t c i h]
    exact snrVal_zero_neighbors F _ s i
  · intro psd C F s c i h hc hi
    refine ⟨snr_spectrum_rank2_ok psd C F 0 s h,
      snr_spectrum_rank2_shape psd C F 0 s h, ?_⟩
    rw [snr_spectrum_rank2_data psd C F 0 s c i h hc hi]
    exact snrVal_zero_neighbors F _ s i

/-- C10 witness: the theorem applied to psdEx3 at [0, 1, 3] and psdEx2 at
[1, 3] with neighbor count 0, skip count 1 (bin 3 would be defined for
neighbor count 1, yet is NaN here). -/
theorem claim_C10_witness :
    (isOk (snr_spectrum psdEx3 0 1) = true ∧
      (okTensor (snr_spectrum psdEx3 0 1)).shape = psdEx3.shape ∧
      (okTensor (snr_spectrum psdEx3 0 1)).data [0, 1, 3] = Val.nan) ∧
    (isOk (snr_spectrum psdEx2 0 1) = true ∧
      (okTensor (snr_spectrum psdEx2 0 1)).shape = psdEx2.shape ∧
      (okTensor (snr_spectrum psdEx2 0 1)).data [1, 3] = Val.nan) :=
  ⟨claim_C10.1 psdEx3 2 2 7 1 0 1 3 rfl (by decide) (by decide) (by decide),
   claim_C10.2 psdEx2 2 7 1 1 3 rfl (by decide) (by decide)⟩
